import Mathlib

/-!
Verification of the Simulated Trading Engine specification of the
Technical_Analyst repository, together with the `TradingAPI` frontend
service (`src/web/frontend/src/services/tradingApi.js`).

The engine itself ships in the repository only as a planning-level design
(spec sections 3-7 and the SQL schema in the Makefile's planning document:
`simulated_accounts`, `simulated_positions`, `trading_signals`); the
definitions in the `Engine` namespace are therefore modelled from the
spec's words.  Money and prices are embedded as exact rationals, share
quantities as integers (the SQL schema declares `quantity INTEGER`,
`price DECIMAL`).
-/

namespace Engine

/-- Modelled from the spec: engine configuration — commission rate with a
minimum-commission floor, SELL-side stamp tax, slippage rate for MARKET
executions, the freeze-sizing slippage buffer for BUY admission, and the
per-tick liquidity fraction bounding fills when the quote carries volume. -/
structure Config where
  commissionRate : ℚ
  minCommission : ℚ
  stampTaxRate : ℚ
  slippageRate : ℚ
  maxSlippageBuffer : ℚ
  liquidityFraction : ℚ
deriving DecidableEq, Repr

/-- Modelled from the spec: order side. -/
inductive Side where
  | buy
  | sell
deriving DecidableEq, Repr

/-- Modelled from the spec: order type (MARKET or LIMIT). -/
inductive OrderType where
  | market
  | limit
deriving DecidableEq, Repr

/-- Modelled from the spec: the order status finite state machine's states.
`partFilled` renders the spec's PARTIALLY_FILLED. -/
inductive OrderStatus where
  | pending
  | partFilled
  | filled
  | rejected
  | cancelled
deriving DecidableEq, Repr

/-- FILLED, REJECTED and CANCELLED are the terminal statuses. -/
def OrderStatus.isTerminal : OrderStatus → Bool
  | .filled => true
  | .rejected => true
  | .cancelled => true
  | _ => false

/-- An order rests (participates in matching) while PENDING or
PARTIALLY_FILLED. -/
def OrderStatus.isActive : OrderStatus → Bool
  | .pending => true
  | .partFilled => true
  | _ => false

/-- Modelled from the spec: admission-time rejection reasons. -/
inductive RejectReason where
  | insufficientFunds
  | insufficientShares
  | invalidOrder
deriving DecidableEq, Repr

/-- Modelled from the spec: errors returned synchronously by control
operations. -/
inductive EngineError where
  | rejected (reason : RejectReason)
  | alreadyTerminal
  | orderNotFound
deriving DecidableEq, Repr

/-- Modelled from the spec: an Order.  `frozenRemaining` tracks the frozen
cash still attached to the unfilled part of a BUY order (released
proportionally on fills and fully on cancel). -/
structure Order where
  id : ℕ
  symbol : String
  side : Side
  orderType : OrderType
  limitPrice : Option ℚ
  quantity : ℤ
  filledQuantity : ℤ
  frozenRemaining : ℚ
  status : OrderStatus
  rejectReason : Option RejectReason
  createdAt : ℕ
deriving DecidableEq, Repr

/-- Modelled from the spec: a Position of the Position Book, with the T+1
`availableQuantity` and the mark-to-market `lastPrice`. -/
structure Position where
  symbol : String
  quantity : ℤ
  availableQuantity : ℤ
  avgCost : ℚ
  lastPrice : ℚ
deriving DecidableEq, Repr

/-- Modelled from the spec: an append-only Trade record. -/
structure Trade where
  orderId : ℕ
  symbol : String
  side : Side
  price : ℚ
  quantity : ℤ
  commission : ℚ
deriving DecidableEq, Repr

/-- Modelled from the spec: a market quote tick. -/
structure Quote where
  symbol : String
  price : ℚ
  volume : Option ℤ
  limitUp : ℚ
  limitDown : ℚ
deriving DecidableEq, Repr

/-- Modelled from the spec: the Account Ledger and Position Book state of
one account.  `totalAsset` is the stored field of the Account record; every
mutating operation maintains the balance equation
`cashBalance + frozenCash + Σ marketValue = totalAsset`. -/
structure Books where
  cashBalance : ℚ
  frozenCash : ℚ
  totalAsset : ℚ
  realizedPnL : ℚ
  positions : List Position
deriving DecidableEq, Repr

/-- Modelled from the spec: the whole per-account engine state — ledger and
position book, the order table, and the append-only trade log. -/
structure EngineState where
  books : Books
  orders : List Order
  trades : List Trade
  nextOrderId : ℕ
deriving DecidableEq, Repr

/-- Market value of one position: `quantity * lastPrice`. -/
def marketValue (p : Position) : ℚ := p.quantity * p.lastPrice

/-- Aggregate market value of the position book. -/
def sumMV (ps : List Position) : ℚ := (ps.map marketValue).sum

/-- First position recorded for a symbol, if any. -/
def findPos (ps : List Position) (s : String) : Option Position :=
  ps.find? (fun p => p.symbol = s)

/-- T+1 sellable quantity recorded for a symbol (0 when no position). -/
def availableOf (ps : List Position) (s : String) : ℤ :=
  match findPos ps s with
  | some p => p.availableQuantity
  | none => 0

/-- Average cost recorded for a symbol (0 when no position). -/
def avgCostOf (ps : List Position) (s : String) : ℚ :=
  match findPos ps s with
  | some p => p.avgCost
  | none => 0

/-- Share quantity recorded for a symbol (0 when no position). -/
def quantityOf (ps : List Position) (s : String) : ℤ :=
  match findPos ps s with
  | some p => p.quantity
  | none => 0

/-- Modelled from the spec: `markToMarket(quote)` on the Position Book —
stores the quote price as `lastPrice` of the symbol's positions. -/
def markPositions (ps : List Position) (s : String) (px : ℚ) : List Position :=
  ps.map (fun p => if p.symbol = s then { p with lastPrice := px } else p)

/-- Revaluation carried by a mark-to-market update: the change of the
aggregate market value caused by moving `lastPrice` to the quote price. -/
def markDelta (ps : List Position) (s : String) (px : ℚ) : ℚ :=
  (ps.map (fun p => if p.symbol = s then p.quantity * (px - p.lastPrice) else 0)).sum

/-- Modelled from the spec: the mark-to-market update at engine level —
the Position Book stores the quote price and the Account Ledger revalues
`totalAsset` by the corresponding unrealized-P&L change, keeping the
balance equation intact. -/
def applyMarkBooks (s : String) (px : ℚ) (b : Books) : Books :=
  { b with
    positions := markPositions b.positions s px
    totalAsset := b.totalAsset + markDelta b.positions s px }

/-- Modelled from the spec: `applyFill` for a BUY — the first position of
the symbol gains `fq` shares and its average cost is recomputed as
`(oldQty*oldAvgCost + fq*execPx) / (oldQty + fq)`; the newly bought
quantity is NOT added to `availableQuantity` (T+1).  On the first buy fill
for a symbol the position is created (with `lastPrice` the marked quote
price `markPx`). -/
def applyBuyFill (ps : List Position) (s : String) (fq : ℤ) (execPx markPx : ℚ) :
    List Position :=
  match ps with
  | [] => [⟨s, fq, 0, execPx, markPx⟩]
  | p :: rest =>
    if p.symbol = s then
      { p with
        quantity := p.quantity + fq
        avgCost := (p.quantity * p.avgCost + fq * execPx) / ((p.quantity + fq : ℤ) : ℚ) }
        :: rest
    else
      p :: applyBuyFill rest s fq execPx markPx

/-- Modelled from the spec: `applyFill` for a SELL — the first position of
the symbol loses `fq` from both `quantity` and `availableQuantity`; the
position is removed when its quantity reaches zero. -/
def applySellFill (ps : List Position) (s : String) (fq : ℤ) : List Position :=
  match ps with
  | [] => []
  | p :: rest =>
    if p.symbol = s then
      if p.quantity - fq = 0 then rest
      else
        { p with
          quantity := p.quantity - fq
          availableQuantity := p.availableQuantity - fq } :: rest
    else
      p :: applySellFill rest s fq

/-- Modelled from the spec: `rollSettlement` — at the trading-session
boundary all of `quantity` becomes sellable (`availableQuantity`). -/
def rollPositions (ps : List Position) : List Position :=
  ps.map (fun p => { p with availableQuantity := p.quantity })

/-- Modelled from the spec: `freeze(amount)` of the Account Ledger — moves
cash from `cashBalance` to `frozenCash`; `totalAsset` is unaffected. -/
def freezeCash (amount : ℚ) (b : Books) : Books :=
  { b with
    cashBalance := b.cashBalance - amount
    frozenCash := b.frozenCash + amount }

/-- Modelled from the spec: `releaseFreeze` — returns a frozen amount to
`cashBalance`; `totalAsset` is unaffected. -/
def releaseFreeze (amount : ℚ) (b : Books) : Books :=
  { b with
    cashBalance := b.cashBalance + amount
    frozenCash := b.frozenCash - amount }

/-- Modelled from the spec: execution price of an order against a quote.
MARKET orders always match, at the quote price adjusted by slippage (plus
for BUY, minus for SELL).  LIMIT orders match only if `quote.price <=
limitPrice` (BUY) / `quote.price >= limitPrice` (SELL), and execute at
`min(quote.price, limitPrice)` / `max(quote.price, limitPrice)`.  `none`
means no match on this tick. -/
def execPrice (cfg : Config) (o : Order) (q : Quote) : Option ℚ :=
  match o.orderType with
  | .market =>
    match o.side with
    | .buy => some (q.price * (1 + cfg.slippageRate))
    | .sell => some (q.price * (1 - cfg.slippageRate))
  | .limit =>
    match o.limitPrice with
    | none => none
    | some lp =>
      match o.side with
      | .buy => if q.price ≤ lp then some (min q.price lp) else none
      | .sell => if lp ≤ q.price then some (max q.price lp) else none

/-- Modelled from the spec: per-tick fill-quantity cap — the configured
liquidity fraction of `quote.volume` when volume is available, otherwise
the full remaining quantity is fillable. -/
def fillCap (cfg : Config) (q : Quote) (remaining : ℤ) : ℤ :=
  match q.volume with
  | none => remaining
  | some v => min remaining (cfg.liquidityFraction * (v : ℚ)).floor

/-- Modelled from the spec: commission of a fill — `execPrice * filledQty *
commissionRate`, floored at the configured minimum commission; the
SELL-side stamp tax is added for SELL trades. -/
def commissionFor (cfg : Config) (side : Side) (px : ℚ) (fq : ℤ) : ℚ :=
  max (px * fq * cfg.commissionRate) cfg.minCommission +
    (match side with
     | .sell => px * fq * cfg.stampTaxRate
     | .buy => 0)

/-- Remaining unfilled quantity of an order. -/
def remainingQty (o : Order) : ℤ := o.quantity - o.filledQuantity

/-- Modelled from the spec: fillable quantity of one order on one tick —
the remaining quantity capped by the per-tick liquidity bound and, for a
SELL, by the position's T+1 `availableQuantity` (the spec requires that a
fill which would drive `availableQuantity` negative is never requested). -/
def fillQty (cfg : Config) (q : Quote) (o : Order) (b : Books) : ℤ :=
  match o.side with
  | .buy => fillCap cfg q (remainingQty o)
  | .sell => min (fillCap cfg q (remainingQty o)) (availableOf b.positions o.symbol)

/-- Status of an order after filling `fq` more shares. -/
def statusAfterFill (o : Order) (fq : ℤ) : OrderStatus :=
  if o.filledQuantity + fq = o.quantity then .filled else .partFilled

/-- Modelled from the spec: one matching attempt of one resting order
against one quote tick (the quote has already been marked to market and
passed the price-limit band check).  A BUY fill releases the frozen cash
proportional to the filled quantity and pays the actual cost; a SELL fill
credits `price*quantity - commission`.  The ledger's `totalAsset` is
revalued by the fill's realized effect so that the balance equation is
maintained.  Returns the updated order, the updated books, and the emitted
trade, if any. -/
def tryFill (cfg : Config) (q : Quote) (o : Order) (b : Books) :
    Order × Books × Option Trade :=
  if o.status.isActive = true ∧ o.symbol = q.symbol then
    match execPrice cfg o q with
    | none => (o, b, none)
    | some px =>
      if fillQty cfg q o b ≤ 0 then (o, b, none)
      else
        match o.side with
        | .buy =>
          ({ o with
              filledQuantity := o.filledQuantity + fillQty cfg q o b
              frozenRemaining := o.frozenRemaining -
                o.frozenRemaining * fillQty cfg q o b / (remainingQty o : ℚ)
              status := statusAfterFill o (fillQty cfg q o b) },
            { b with
              cashBalance := b.cashBalance +
                o.frozenRemaining * fillQty cfg q o b / (remainingQty o : ℚ) -
                (px * fillQty cfg q o b + commissionFor cfg .buy px (fillQty cfg q o b))
              frozenCash := b.frozenCash -
                o.frozenRemaining * fillQty cfg q o b / (remainingQty o : ℚ)
              totalAsset := b.totalAsset + fillQty cfg q o b * q.price -
                (px * fillQty cfg q o b + commissionFor cfg .buy px (fillQty cfg q o b))
              positions := applyBuyFill b.positions o.symbol (fillQty cfg q o b) px q.price },
            some ⟨o.id, o.symbol, .buy, px, fillQty cfg q o b,
              commissionFor cfg .buy px (fillQty cfg q o b)⟩)
        | .sell =>
          ({ o with
              filledQuantity := o.filledQuantity + fillQty cfg q o b
              status := statusAfterFill o (fillQty cfg q o b) },
            { b with
              cashBalance := b.cashBalance +
                (px * fillQty cfg q o b - commissionFor cfg .sell px (fillQty cfg q o b))
              totalAsset := b.totalAsset +
                (px * fillQty cfg q o b - commissionFor cfg .sell px (fillQty cfg q o b)) -
                fillQty cfg q o b * q.price
              realizedPnL := b.realizedPnL +
                (px - avgCostOf b.positions o.symbol) * fillQty cfg q o b -
                commissionFor cfg .sell px (fillQty cfg q o b)
              positions := applySellFill b.positions o.symbol (fillQty cfg q o b) },
            some ⟨o.id, o.symbol, .sell, px, fillQty cfg q o b,
              commissionFor cfg .sell px (fillQty cfg q o b)⟩)
  else (o, b, none)

/-- Modelled from the spec: price-then-time processing priority — MARKET
orders first, then better limit prices (higher for BUY, lower for SELL),
ties broken by creation time, earliest first. -/
def betterPrice (a b : Order) : Bool :=
  match a.orderType, b.orderType with
  | .market, .limit => true
  | .limit, .market => false
  | .market, .market => false
  | .limit, .limit =>
    match a.limitPrice, b.limitPrice, a.side with
    | some pa, some pb, .buy => decide (pb < pa)
    | some pa, some pb, .sell => decide (pa < pb)
    | _, _, _ => false

/-- Total processing-priority comparison used to sort resting orders. -/
def priorityLE (a b : Order) : Bool :=
  betterPrice a b || (!betterPrice b a && a.createdAt ≤ b.createdAt)

/-- Stable insertion of an order into a priority-sorted list. -/
def insertPriority (o : Order) : List Order → List Order
  | [] => [o]
  | x :: xs => if priorityLE o x = true then o :: x :: xs else x :: insertPriority o xs

/-- Stable insertion sort of the resting orders by price-then-time
priority. -/
def sortOrders : List Order → List Order
  | [] => []
  | x :: xs => insertPriority x (sortOrders xs)

/-- Modelled from the spec: one matching pass — each resting order is
offered the quote once, in the given order; the books thread through the
fills and the emitted trades are collected in processing order. -/
def matchOrders (cfg : Config) (q : Quote) :
    List Order → Books → List Order × Books × List Trade
  | [], b => ([], b, [])
  | o :: rest, b =>
    ((tryFill cfg q o b).1 :: (matchOrders cfg q rest (tryFill cfg q o b).2.1).1,
      (matchOrders cfg q rest (tryFill cfg q o b).2.1).2.1,
      (match (tryFill cfg q o b).2.2 with | some t => [t] | none => []) ++
        (matchOrders cfg q rest (tryFill cfg q o b).2.1).2.2)

/-- Modelled from the spec: processing of one quote tick — the symbol's
positions are marked to market, then, unless the quote is outside the
price-limit band `[limitDown, limitUp]` (halt: resting orders are held,
not cancelled), the resting orders are matched in price-then-time
priority. -/
def processQuote (cfg : Config) (q : Quote) (st : EngineState) : EngineState :=
  if q.limitDown ≤ q.price ∧ q.price ≤ q.limitUp then
    { books := (matchOrders cfg q (sortOrders st.orders)
        (applyMarkBooks q.symbol q.price st.books)).2.1
      orders := (matchOrders cfg q (sortOrders st.orders)
        (applyMarkBooks q.symbol q.price st.books)).1
      trades := st.trades ++ (matchOrders cfg q (sortOrders st.orders)
        (applyMarkBooks q.symbol q.price st.books)).2.2
      nextOrderId := st.nextOrderId }
  else { st with books := applyMarkBooks q.symbol q.price st.books }

/-- Modelled from the spec: an order submission request.  `refPrice` is the
reference price used to size the BUY freeze for MARKET orders (the current
quote price); LIMIT orders are frozen at their limit price. -/
structure OrderRequest where
  symbol : String
  side : Side
  orderType : OrderType
  limitPrice : Option ℚ
  quantity : ℤ
  refPrice : ℚ
deriving DecidableEq, Repr

/-- Reference price used to size a BUY order's cash freeze. -/
def freezeRefPrice (req : OrderRequest) : ℚ :=
  match req.orderType, req.limitPrice with
  | .limit, some lp => lp
  | _, _ => req.refPrice

/-- The Order record created at admission from a request. -/
def newOrder (req : OrderRequest) (oid : ℕ) (status : OrderStatus)
    (reason : Option RejectReason) (frozen : ℚ) : Order :=
  { id := oid
    symbol := req.symbol
    side := req.side
    orderType := req.orderType
    limitPrice := req.limitPrice
    quantity := req.quantity
    filledQuantity := 0
    frozenRemaining := frozen
    status := status
    rejectReason := reason
    createdAt := oid }

/-- Cash frozen on the admission of a BUY order:
`price * quantity * (1 + maxSlippageBuffer)`. -/
def freezeAmount (cfg : Config) (req : OrderRequest) : ℚ :=
  freezeRefPrice req * req.quantity * (1 + cfg.maxSlippageBuffer)

/-- State after a synchronous admission rejection: the order is recorded in
terminal status REJECTED with its reason code; the books are untouched. -/
def rejectSubmit (req : OrderRequest) (r : RejectReason) (st : EngineState) :
    EngineState × Except RejectReason ℕ :=
  ({ st with
      orders := st.orders ++ [newOrder req st.nextOrderId .rejected (some r) 0]
      nextOrderId := st.nextOrderId + 1 },
    .error r)

/-- Modelled from the spec: order admission (`submit(order)`).  A LIMIT
order without a limit price, or a non-positive quantity, is rejected with
`InvalidOrder`; a BUY is rejected with `InsufficientFunds` unless the cash
balance covers `price * quantity * (1 + maxSlippageBuffer)`, which is then
frozen before the order enters PENDING; a SELL is rejected with
`InsufficientShares` unless `position.availableQuantity >= quantity`.  A
rejected order is recorded in terminal status REJECTED carrying its reason
code and never participates in matching. -/
def submitOrder (cfg : Config) (req : OrderRequest) (st : EngineState) :
    EngineState × Except RejectReason ℕ :=
  if (req.orderType = .limit ∧ req.limitPrice = none) ∨ req.quantity ≤ 0 then
    rejectSubmit req .invalidOrder st
  else
    match req.side with
    | .buy =>
      if st.books.cashBalance < freezeAmount cfg req then
        rejectSubmit req .insufficientFunds st
      else
        ({ st with
            books := freezeCash (freezeAmount cfg req) st.books
            orders := st.orders ++
              [newOrder req st.nextOrderId .pending none (freezeAmount cfg req)]
            nextOrderId := st.nextOrderId + 1 },
          .ok st.nextOrderId)
    | .sell =>
      if availableOf st.books.positions req.symbol < req.quantity then
        rejectSubmit req .insufficientShares st
      else
        ({ st with
            orders := st.orders ++ [newOrder req st.nextOrderId .pending none 0]
            nextOrderId := st.nextOrderId + 1 },
          .ok st.nextOrderId)

/-- Modelled from the spec: `cancel(orderId)` — only valid from PENDING or
PARTIALLY_FILLED; releases the remaining frozen cash and moves the order to
terminal CANCELLED; cancelling a terminal order is a no-op returning
`AlreadyTerminal`. -/
def cancelOrder (st : EngineState) (oid : ℕ) : EngineState × Except EngineError Unit :=
  match st.orders.find? (fun o => o.id = oid) with
  | none => (st, .error .orderNotFound)
  | some o =>
    if o.status.isActive = true then
      ({ st with
          books := releaseFreeze o.frozenRemaining st.books
          orders := st.orders.map (fun o_ =>
            if o_.id = oid ∧ o_.status.isActive = true then
              { o_ with status := .cancelled, frozenRemaining := 0 }
            else o_) },
        .ok ())
    else (st, .error .alreadyTerminal)

/-- Modelled from the spec: `rollSettlement` at engine level — every
position's full quantity becomes available (T+1 shares become sellable the
next session). -/
def rollSettlement (st : EngineState) : EngineState :=
  { st with books := { st.books with positions := rollPositions st.books.positions } }

/-- Modelled from the spec: the closed command alphabet of the engine's
serialized per-account loop — order submission, cancellation, a quote tick,
and the session-boundary settlement roll. -/
inductive EngineOp where
  | submit (req : OrderRequest)
  | cancel (oid : ℕ)
  | tick (q : Quote)
  | roll
deriving DecidableEq, Repr

/-- State transition of one engine operation. -/
def applyOp (cfg : Config) (op : EngineOp) (st : EngineState) : EngineState :=
  match op with
  | .submit req => (submitOrder cfg req st).1
  | .cancel oid => (cancelOrder st oid).1
  | .tick q => processQuote cfg q st
  | .roll => rollSettlement st

/-- The spec's account balance equation:
`cashBalance + frozenCash + Σ position.marketValue = totalAsset`. -/
def balanceInv (b : Books) : Prop :=
  b.cashBalance + b.frozenCash + sumMV b.positions = b.totalAsset

/-- Configuration of the spec's MARKET-BUY scenario: commission rate
`0.0003`, no minimum commission, no stamp tax, no slippage, no freeze
buffer, full per-tick liquidity. -/
def demoConfig : Config := ⟨3/10000, 0, 0, 0, 0, 1⟩

/-- Books of the spec's MARKET-BUY scenario: `cashBalance = 1,000,000`, no
positions. -/
def demoBooks : Books := ⟨1000000, 0, 1000000, 0, []⟩

/-- Initial engine state of the spec's MARKET-BUY scenario. -/
def demoState : EngineState := ⟨demoBooks, [], [], 0⟩

/-- The spec's MARKET-BUY request: 1000 shares of `AAA` at quote price
`10.00`. -/
def demoBuyReq : OrderRequest := ⟨"AAA", .buy, .market, none, 1000, 10⟩

/-- The `AAA` quote at `10.00` driving the MARKET-BUY scenario. -/
def demoQuote : Quote := ⟨"AAA", 10, none, 20, 1⟩

/-- Configuration of the spec's LIMIT-SELL scenario: all rates zero. -/
def limitCfg : Config := ⟨0, 0, 0, 0, 0, 1⟩

/-- Position held in the LIMIT-SELL scenario: 100 sellable shares of
`BBB`. -/
def limitPos : Position := ⟨"BBB", 100, 100, 10, 11⟩

/-- The resting LIMIT SELL order at `limitPrice = 12.00` of the spec's
scenario. -/
def limitSellOrder : Order := ⟨1, "BBB", .sell, .limit, some 12, 100, 0, 0, .pending, none, 1⟩

/-- Initial engine state of the LIMIT-SELL scenario. -/
def limitState : EngineState := ⟨⟨0, 0, 1100, 0, [limitPos]⟩, [limitSellOrder], [], 2⟩

/-- A `BBB` quote at the given price with a wide price-limit band. -/
def limitQuote (p : ℚ) : Quote := ⟨"BBB", p, none, 100, 0⟩

/-- A SELL request for 200 shares of `BBB` — more than the 100 available
in `limitState` — used to exhibit the `InsufficientShares` rejection. -/
def oversellReq : OrderRequest := ⟨"BBB", .sell, .market, none, 200, 12⟩

/-- A quote at price `p` for symbol `s` with the band pinned to `p`. -/
def rtQuote (s : String) (p : ℚ) : Quote := ⟨s, p, none, p, p⟩

/-- A pending MARKET BUY order for `n` shares of `s`, carrying the freeze
taken at its admission (`p * n * (1 + maxSlippageBuffer)`). -/
def rtBuyOrder (cfg : Config) (s : String) (n : ℤ) (p : ℚ) : Order :=
  ⟨1, s, .buy, .market, none, n, 0, p * n * (1 + cfg.maxSlippageBuffer), .pending, none, 0⟩

/-- A pending MARKET SELL order for `n` shares of `s`. -/
def rtSellOrder (s : String) (n : ℤ) : Order :=
  ⟨2, s, .sell, .market, none, n, 0, 0, .pending, none, 1⟩

/-- `rollSettlement` restricted to the books. -/
def rollBooks (b : Books) : Books := { b with positions := rollPositions b.positions }

/-- The round-trip experiment of the spec: freeze and BUY-fill `n` shares
of `s` at price `p`, roll the T+1 settlement, then SELL-fill the same `n`
shares at the same price. -/
def roundTripBooks (cfg : Config) (s : String) (n : ℤ) (p : ℚ) (b : Books) : Books :=
  (tryFill cfg (rtQuote s p) (rtSellOrder s n)
    (rollBooks (tryFill cfg (rtQuote s p) (rtBuyOrder cfg s n p)
      (freezeCash (p * n * (1 + cfg.maxSlippageBuffer)) b)).2.1)).2.1

/-- The spec's position bounds: `0 <= availableQuantity <= quantity`. -/
def posInv (ps : List Position) : Prop :=
  ∀ p ∈ ps, 0 ≤ p.availableQuantity ∧ p.availableQuantity ≤ p.quantity

/-- All positions of a symbol carry the given marked `lastPrice`.  This
holds for the tick's symbol after the mark-to-market step of a matching
pass. -/
def markedAt (ps : List Position) (s : String) (px : ℚ) : Prop :=
  ∀ p ∈ ps, p.symbol = s → p.lastPrice = px

end Engine

namespace WebAPI

/-!
Shallow embedding of the frontend `TradingAPI` service
(`src/web/frontend/src/services/tradingApi.js`).  A `fetch` call is
embedded as its observable outcome; a JavaScript promise that resolves is
`Except.ok`, one that rejects is `Except.error`.
-/

/-- Outcome of one `fetch(url, config)` call as `TradingAPI.request`
observes it: either the network request itself fails (the promise
rejects), or a response arrives with its `ok` flag, HTTP status, and the
result of parsing its JSON body (`response.json()` may itself reject). -/
inductive FetchOutcome (β : Type) where
  | networkFailure (msg : String)
  | response (ok : Bool) (status : ℕ) (body : Except String β)

/-- Embeds `TradingAPI.request` (tradingApi.js lines 11-33): on a response
with `ok` true the parsed JSON body is returned (a JSON-parse rejection
propagates); on `ok` false an `HTTP error! status: ...` error is thrown;
a fetch failure is logged and re-thrown.  No failure is converted into a
return value. -/
def request {β : Type} (o : FetchOutcome β) : Except String β :=
  match o with
  | .networkFailure msg => .error msg
  | .response ok status body =>
    if ok = true then body
    else .error ("HTTP error! status: " ++ toString status)

/-- Embeds `TradingAPI.getAccountSummary`: `request` on the
account-summary endpoint, failures propagated unchanged. -/
def getAccountSummary {β : Type} (env : String → FetchOutcome β) (accountId : ℕ) :
    Except String β :=
  request (env ("/accounts/" ++ toString accountId ++ "/summary"))

/-- Embeds `TradingAPI.getPositions`. -/
def getPositions {β : Type} (env : String → FetchOutcome β) (accountId : ℕ) :
    Except String β :=
  request (env ("/accounts/" ++ toString accountId ++ "/positions"))

/-- Embeds `TradingAPI.getMarketIndices`. -/
def getMarketIndices {β : Type} (env : String → FetchOutcome β) : Except String β :=
  request (env "/market/realtime/indices")

/-- The payload `startRealtimeUpdates` hands to its callback: the latest
account summary and market indices. -/
structure UpdatePayload (α μ : Type) where
  account : α
  market : μ
deriving DecidableEq, Repr

/-- One cycle of `updateData` inside `startRealtimeUpdates` (tradingApi.js
lines 137-165): `Promise.all` of the two fetches; if both succeed the
callback receives the payload, and any rejection is caught inside the
cycle — the callback is simply not invoked and no error escapes. -/
def updateData {α μ : Type} (acct : Except String α) (mkt : Except String μ) :
    Option (UpdatePayload α μ) :=
  match acct, mkt with
  | .ok a, .ok m => some ⟨a, m⟩
  | _, _ => none

/-- Discrete timer events after `startRealtimeUpdates` returns: an interval
tick firing `updateData`, or a call of the returned cleanup function
(`clearInterval`). -/
inductive TimerEvent where
  | tick
  | cleanup
deriving DecidableEq, Repr

/-- Observable state of the polling loop: whether the interval is armed,
the index of the next cycle, and the list of payloads the callback has
received so far. -/
structure RealtimeState (α μ : Type) where
  active : Bool
  nextCycle : ℕ
  calls : List (UpdatePayload α μ)
deriving DecidableEq, Repr

/-- Embeds the body of `startRealtimeUpdates`: `updateData` runs once
immediately (cycle 0), then the interval is armed. -/
def startRealtimeUpdates {α μ : Type} (env : ℕ → Except String α × Except String μ) :
    RealtimeState α μ :=
  { active := true
    nextCycle := 1
    calls := (updateData (env 0).1 (env 0).2).toList }

/-- Embeds the timer semantics: an interval tick runs the next cycle while
the interval is armed (a failed cycle appends nothing but still advances);
the cleanup function disarms the interval so no further cycle runs. -/
def stepRealtime {α μ : Type} (env : ℕ → Except String α × Except String μ)
    (st : RealtimeState α μ) : TimerEvent → RealtimeState α μ
  | .tick =>
    if st.active = true then
      { st with
        nextCycle := st.nextCycle + 1
        calls := st.calls ++ (updateData (env st.nextCycle).1 (env st.nextCycle).2).toList }
    else st
  | .cleanup => { st with active := false }

/-- The polling loop driven by a list of timer events. -/
def runRealtime {α μ : Type} (env : ℕ → Except String α × Except String μ)
    (evs : List TimerEvent) : RealtimeState α μ :=
  evs.foldl (stepRealtime env) (startRealtimeUpdates env)

/-- A concrete cycle environment: cycle 1's account fetch rejects, every
other cycle succeeds. -/
def demoEnv : ℕ → Except String ℕ × Except String ℕ := fun i =>
  if i = 1 then (.error "HTTP error! status: 500", .ok 7) else (.ok 42, .ok 7)

end WebAPI

namespace Engine

theorem sumMV_nil : sumMV [] = 0 := rfl

theorem sumMV_cons (p : Position) (ps : List Position) :
    sumMV (p :: ps) = marketValue p + sumMV ps := by
  simp [sumMV]

theorem markPositions_nil (s : String) (px : ℚ) : markPositions [] s px = [] := rfl

theorem markPositions_cons (p : Position) (ps : List Position) (s : String) (px : ℚ) :
    markPositions (p :: ps) s px =
      (if p.symbol = s then { p with lastPrice := px } else p) :: markPositions ps s px := by
  simp [markPositions]

theorem markDelta_nil (s : String) (px : ℚ) : markDelta [] s px = 0 := rfl

theorem markDelta_cons (p : Position) (ps : List Position) (s : String) (px : ℚ) :
    markDelta (p :: ps) s px =
      (if p.symbol = s then p.quantity * (px - p.lastPrice) else 0) + markDelta ps s px := by
  simp [markDelta]

theorem findPos_nil (s : String) : findPos [] s = none := rfl

theorem findPos_cons_pos {p : Position} {s : String} (ps : List Position) (h : p.symbol = s) :
    findPos (p :: ps) s = some p := by
  simp [findPos, List.find?_cons_of_pos, h]

theorem findPos_cons_neg {p : Position} {s : String} (ps : List Position) (h : ¬p.symbol = s) :
    findPos (p :: ps) s = findPos ps s := by
  simp [findPos, List.find?_cons_of_neg, h]

theorem sumMV_markPositions (ps : List Position) (s : String) (px : ℚ) :
    sumMV (markPositions ps s px) = sumMV ps + markDelta ps s px := by
  induction ps with
  | nil => simp [markPositions_nil, markDelta_nil, sumMV_nil]
  | cons p rest ih =>
    rw [markPositions_cons, markDelta_cons, sumMV_cons, sumMV_cons]
    by_cases h : p.symbol = s
    · rw [if_pos h, if_pos h, ih]
      simp only [marketValue]
      ring
    · rw [if_neg h, if_neg h, ih]
      ring

theorem markedAt_markPositions (ps : List Position) (s : String) (px : ℚ) :
    markedAt (markPositions ps s px) s px := by
  intro p hp hsym
  simp only [markPositions, List.mem_map] at hp
  obtain ⟨p0, _, hq⟩ := hp
  by_cases h : p0.symbol = s
  · rw [if_pos h] at hq
    rw [← hq]
  · rw [if_neg h] at hq
    exact absurd (hq ▸ hsym) h

theorem markPositions_markPositions (ps : List Position) (s : String) (px : ℚ) :
    markPositions (markPositions ps s px) s px = markPositions ps s px := by
  induction ps with
  | nil => rfl
  | cons p rest ih =>
    by_cases h : p.symbol = s <;>
      simp [markPositions_cons, h, ih]

theorem markDelta_markPositions (ps : List Position) (s : String) (px : ℚ) :
    markDelta (markPositions ps s px) s px = 0 := by
  induction ps with
  | nil => rfl
  | cons p rest ih =>
    by_cases h : p.symbol = s <;>
      simp [markPositions_cons, markDelta_cons, h, ih]

theorem sumMV_applyBuyFill (ps : List Position) (s : String) (fq : ℤ) (execPx px : ℚ)
    (hm : markedAt ps s px) :
    sumMV (applyBuyFill ps s fq execPx px) = sumMV ps + fq * px := by
  induction ps with
  | nil => simp [applyBuyFill, sumMV, marketValue]
  | cons p rest ih =>
    by_cases h : p.symbol = s
    · rw [applyBuyFill, if_pos h, sumMV_cons, sumMV_cons]
      have hlp : p.lastPrice = px := hm p (by simp) h
      simp only [marketValue, hlp]
      push_cast
      ring
    · rw [applyBuyFill, if_neg h, sumMV_cons, sumMV_cons,
        ih (fun p_ hp_ => hm p_ (by simp [hp_]))]
      ring

theorem markedAt_applyBuyFill (ps : List Position) (s : String) (fq : ℤ) (execPx px : ℚ)
    (hm : markedAt ps s px) :
    markedAt (applyBuyFill ps s fq execPx px) s px := by
  induction ps with
  | nil =>
    intro p hp _
    simp only [applyBuyFill, List.mem_singleton] at hp
    rw [hp]
  | cons p rest ih =>
    intro p_ hp_ hsym
    by_cases h : p.symbol = s
    · rw [applyBuyFill, if_pos h] at hp_
      rcases List.mem_cons.mp hp_ with h1 | h1
      · rw [h1]
        exact hm p (by simp) h
      · exact hm p_ (by simp [h1]) hsym
    · rw [applyBuyFill, if_neg h] at hp_
      rcases List.mem_cons.mp hp_ with h1 | h1
      · exact hm p_ (by simp [h1]) hsym
      · exact ih (fun x hx => hm x (by simp [hx])) p_ h1 hsym

theorem availableOf_cons_pos {p : Position} {s : String} (ps : List Position)
    (h : p.symbol = s) : availableOf (p :: ps) s = p.availableQuantity := by
  rw [availableOf, findPos_cons_pos ps h]

theorem availableOf_cons_neg {p : Position} {s : String} (ps : List Position)
    (h : ¬p.symbol = s) : availableOf (p :: ps) s = availableOf ps s := by
  rw [availableOf, findPos_cons_neg ps h, availableOf]

theorem availableOf_cons_congr {p p' : Position} (hsym : p'.symbol = p.symbol)
    (hav : p'.availableQuantity = p.availableQuantity) (ps : List Position) (s' : String) :
    availableOf (p' :: ps) s' = availableOf (p :: ps) s' := by
  by_cases h : p.symbol = s'
  · rw [availableOf_cons_pos ps (hsym.trans h), availableOf_cons_pos ps h, hav]
  · rw [availableOf_cons_neg ps (fun hc => h (hsym ▸ hc)), availableOf_cons_neg ps h]

theorem availableOf_applyBuyFill (ps : List Position) (s : String) (fq : ℤ) (execPx px : ℚ)
    (s' : String) :
    availableOf (applyBuyFill ps s fq execPx px) s' = availableOf ps s' := by
  induction ps with
  | nil =>
    rw [applyBuyFill]
    by_cases h : s = s'
    · rw [availableOf_cons_pos [] h]
      rfl
    · rw [availableOf_cons_neg [] h]
  | cons p rest ih =>
    by_cases h : p.symbol = s
    · rw [applyBuyFill, if_pos h]
      refine availableOf_cons_congr ?_ ?_ rest s' <;> rfl
    · rw [applyBuyFill, if_neg h]
      by_cases h' : p.symbol = s'
      · rw [availableOf_cons_pos (applyBuyFill rest s fq execPx px) h',
          availableOf_cons_pos rest h']
      · rw [availableOf_cons_neg (applyBuyFill rest s fq execPx px) h',
          availableOf_cons_neg rest h']
        exact ih

theorem posInv_applyBuyFill (ps : List Position) (s : String) (fq : ℤ) (execPx px : ℚ)
    (hfq : 0 ≤ fq) (h : posInv ps) :
    posInv (applyBuyFill ps s fq execPx px) := by
  induction ps with
  | nil =>
    intro p hp
    simp only [applyBuyFill, List.mem_singleton] at hp
    rw [hp]
    exact ⟨le_refl 0, hfq⟩
  | cons p rest ih =>
    intro p_ hp_
    by_cases hsym : p.symbol = s
    · rw [applyBuyFill, if_pos hsym] at hp_
      rcases List.mem_cons.mp hp_ with h1 | h1
      · have hb1 := (h p (by simp)).1
        have hb2 := (h p (by simp)).2
        rw [h1]
        refine ⟨hb1, ?_⟩
        show p.availableQuantity ≤ p.quantity + fq
        omega
      · exact h p_ (by simp [h1])
    · rw [applyBuyFill, if_neg hsym] at hp_
      rcases List.mem_cons.mp hp_ with h1 | h1
      · exact h p_ (by simp [h1])
      · exact ih (fun x hx => h x (by simp [hx])) p_ h1

theorem findPos_isSome_of_availableOf_pos {ps : List Position} {s : String}
    (h : 0 < availableOf ps s) : (findPos ps s).isSome = true := by
  rw [availableOf] at h
  cases hf : findPos ps s with
  | none => rw [hf] at h; exact absurd h (by norm_num)
  | some p => rfl

theorem sumMV_applySellFill (ps : List Position) (s : String) (fq : ℤ) (px : ℚ)
    (hm : markedAt ps s px) (hex : (findPos ps s).isSome = true) :
    sumMV (applySellFill ps s fq) = sumMV ps - fq * px := by
  induction ps with
  | nil => rw [findPos_nil] at hex; exact absurd hex (by simp)
  | cons p rest ih =>
    by_cases h : p.symbol = s
    · have hlp : p.lastPrice = px := hm p (by simp) h
      rw [applySellFill, if_pos h]
      by_cases hz : p.quantity - fq = 0
      · rw [if_pos hz, sumMV_cons]
        have hq : (p.quantity : ℚ) = (fq : ℚ) := by
          have : p.quantity = fq := by omega
          exact_mod_cast congrArg (fun z : ℤ => (z : ℚ)) this
        simp only [marketValue, hlp, hq]
        ring
      · rw [if_neg hz, sumMV_cons, sumMV_cons]
        simp only [marketValue, hlp]
        push_cast
        ring
    · rw [applySellFill, if_neg h, sumMV_cons, sumMV_cons,
        ih (fun x hx => hm x (by simp [hx])) (by rwa [findPos_cons_neg rest h] at hex)]
      ring

theorem markedAt_applySellFill (ps : List Position) (s : String) (fq : ℤ) (px : ℚ)
    (hm : markedAt ps s px) :
    markedAt (applySellFill ps s fq) s px := by
  induction ps with
  | nil =>
    intro p hp
    simp [applySellFill] at hp
  | cons p rest ih =>
    intro p_ hp_ hsym
    by_cases h : p.symbol = s
    · rw [applySellFill, if_pos h] at hp_
      by_cases hz : p.quantity - fq = 0
      · rw [if_pos hz] at hp_
        exact hm p_ (by simp [hp_]) hsym
      · rw [if_neg hz] at hp_
        rcases List.mem_cons.mp hp_ with h1 | h1
        · rw [h1]
          exact hm p (by simp) h
        · exact hm p_ (by simp [h1]) hsym
    · rw [applySellFill, if_neg h] at hp_
      rcases List.mem_cons.mp hp_ with h1 | h1
      · exact hm p_ (by simp [h1]) hsym
      · exact ih (fun x hx => hm x (by simp [hx])) p_ h1 hsym

theorem posInv_applySellFill (ps : List Position) (s : String) (fq : ℤ)
    (h : posInv ps) (hfq : fq ≤ availableOf ps s) :
    posInv (applySellFill ps s fq) := by
  induction ps with
  | nil =>
    intro p hp
    simp [applySellFill] at hp
  | cons p rest ih =>
    intro p_ hp_
    by_cases hsym : p.symbol = s
    · rw [availableOf_cons_pos rest hsym] at hfq
      rw [applySellFill, if_pos hsym] at hp_
      by_cases hz : p.quantity - fq = 0
      · rw [if_pos hz] at hp_
        exact h p_ (by simp [hp_])
      · rw [if_neg hz] at hp_
        rcases List.mem_cons.mp hp_ with h1 | h1
        · have hb1 := (h p (by simp)).1
          have hb2 := (h p (by simp)).2
          rw [h1]
          constructor
          · show 0 ≤ p.availableQuantity - fq
            omega
          · show p.availableQuantity - fq ≤ p.quantity - fq
            omega
        · exact h p_ (by simp [h1])
    · rw [availableOf_cons_neg rest hsym] at hfq
      rw [applySellFill, if_neg hsym] at hp_
      rcases List.mem_cons.mp hp_ with h1 | h1
      · exact h p_ (by simp [h1])
      · exact ih (fun x hx => h x (by simp [hx])) hfq p_ h1

theorem sumMV_rollPositions (ps : List Position) : sumMV (rollPositions ps) = sumMV ps := by
  induction ps with
  | nil => rfl
  | cons p rest ih =>
    simp only [rollPositions, List.map_cons] at ih ⊢
    rw [sumMV_cons, sumMV_cons]
    simp only [marketValue] at ih ⊢
    rw [ih]

theorem posInv_rollPositions (ps : List Position) (h : posInv ps) :
    posInv (rollPositions ps) := by
  intro p hp
  simp only [rollPositions, List.mem_map] at hp
  obtain ⟨p0, hp0, hq⟩ := hp
  have h0 := h p0 hp0
  rw [← hq]
  exact ⟨by show (0:ℤ) ≤ p0.quantity; omega, le_refl _⟩

theorem rollPositions_avail (ps : List Position) :
    ∀ p ∈ rollPositions ps, p.availableQuantity = p.quantity := by
  intro p hp
  simp only [rollPositions, List.mem_map] at hp
  obtain ⟨p0, _, hq⟩ := hp
  rw [← hq]

theorem posInv_markPositions (ps : List Position) (s : String) (px : ℚ)
    (h : posInv ps) : posInv (markPositions ps s px) := by
  intro p hp
  simp only [markPositions, List.mem_map] at hp
  obtain ⟨p0, hp0, hq⟩ := hp
  have h0 := h p0 hp0
  by_cases hs : p0.symbol = s
  · rw [if_pos hs] at hq
    rw [← hq]
    exact h0
  · rw [if_neg hs] at hq
    rw [← hq]
    exact h0

theorem fillQty_sell_le_avail (cfg : Config) (q : Quote) (o : Order) (b : Books)
    (hside : o.side = Side.sell) :
    fillQty cfg q o b ≤ availableOf b.positions o.symbol := by
  rw [fillQty, hside]
  exact min_le_right _ _

theorem tryFill_books (cfg : Config) (q : Quote) (o : Order) (b : Books)
    (hm : markedAt b.positions q.symbol q.price) (hb : balanceInv b) :
    balanceInv (tryFill cfg q o b).2.1 ∧
      markedAt (tryFill cfg q o b).2.1.positions q.symbol q.price := by
  unfold tryFill
  split
  case isFalse => exact ⟨hb, hm⟩
  case isTrue hcond =>
    obtain ⟨hact, hsym⟩ := hcond
    have hm' : markedAt b.positions o.symbol q.price := by rw [hsym]; exact hm
    split
    case h_1 => exact ⟨hb, hm⟩
    case h_2 px hex =>
      split
      case isTrue => exact ⟨hb, hm⟩
      case isFalse hfq =>
        have hfq' : 0 < fillQty cfg q o b := by omega
        split
        case h_1 hside =>
          constructor
          · unfold balanceInv at hb ⊢
            dsimp only
            rw [sumMV_applyBuyFill b.positions o.symbol (fillQty cfg q o b) px q.price hm']
            linarith
          · dsimp only
            rw [← hsym]
            exact markedAt_applyBuyFill b.positions o.symbol (fillQty cfg q o b) px
              q.price hm'
        case h_2 hside =>
          have havail : 0 < availableOf b.positions o.symbol :=
            lt_of_lt_of_le hfq' (fillQty_sell_le_avail cfg q o b hside)
          have hexist := findPos_isSome_of_availableOf_pos havail
          constructor
          · unfold balanceInv at hb ⊢
            dsimp only
            rw [sumMV_applySellFill b.positions o.symbol (fillQty cfg q o b) q.price hm'
              hexist]
            linarith
          · dsimp only
            rw [← hsym]
            exact markedAt_applySellFill b.positions o.symbol (fillQty cfg q o b)
              q.price hm'

theorem tryFill_posInv (cfg : Config) (q : Quote) (o : Order) (b : Books)
    (h : posInv b.positions) : posInv (tryFill cfg q o b).2.1.positions := by
  unfold tryFill
  split
  case isFalse => exact h
  case isTrue hcond =>
    split
    case h_1 => exact h
    case h_2 px hex =>
      split
      case isTrue => exact h
      case isFalse hfq =>
        have hfq' : 0 < fillQty cfg q o b := by omega
        split
        case h_1 hside =>
          exact posInv_applyBuyFill b.positions o.symbol (fillQty cfg q o b) px q.price
            (le_of_lt hfq') h
        case h_2 hside =>
          exact posInv_applySellFill b.positions o.symbol (fillQty cfg q o b) h
            (fillQty_sell_le_avail cfg q o b hside)

/-- The spec's order state machine, reflexively closed: a step from `a` to
`b` is allowed when `a = b` or when `a -> b` is one of the FSM's edges
`PENDING -> PARTIALLY_FILLED | FILLED | REJECTED | CANCELLED` and
`PARTIALLY_FILLED -> PARTIALLY_FILLED | FILLED | CANCELLED`. -/
def statusStepOK : OrderStatus → OrderStatus → Bool
  | .pending, _ => true
  | .partFilled, .partFilled => true
  | .partFilled, .filled => true
  | .partFilled, .cancelled => true
  | .filled, .filled => true
  | .rejected, .rejected => true
  | .cancelled, .cancelled => true
  | _, _ => false

theorem statusStepOK_refl (s : OrderStatus) : statusStepOK s s = true := by
  cases s <;> rfl

theorem isTerminal_false_of_isActive {s : OrderStatus} (h : s.isActive = true) :
    s.isTerminal = false := by
  cases s <;> simp_all [OrderStatus.isActive, OrderStatus.isTerminal]

theorem statusStepOK_fill {s : OrderStatus} (o : Order) (fq : ℤ) (h : s.isActive = true) :
    statusStepOK s (statusAfterFill o fq) = true := by
  rw [statusAfterFill]
  cases s <;> simp_all [OrderStatus.isActive] <;> split <;> rfl

theorem tryFill_inactive (cfg : Config) (q : Quote) (o : Order) (b : Books)
    (h : o.status.isActive = false) : tryFill cfg q o b = (o, b, none) := by
  rw [tryFill, if_neg]
  intro hc
  rw [hc.1] at h
  cases h

theorem tryFill_order (cfg : Config) (q : Quote) (o : Order) (b : Books) :
    (tryFill cfg q o b).1.id = o.id ∧
      statusStepOK o.status (tryFill cfg q o b).1.status = true ∧
      (o.status.isTerminal = true → (tryFill cfg q o b).1 = o) := by
  unfold tryFill
  split
  case isFalse => exact ⟨rfl, statusStepOK_refl _, fun _ => rfl⟩
  case isTrue hcond =>
    split
    case h_1 => exact ⟨rfl, statusStepOK_refl _, fun _ => rfl⟩
    case h_2 px hex =>
      split
      case isTrue => exact ⟨rfl, statusStepOK_refl _, fun _ => rfl⟩
      case isFalse hfq =>
        have hterm := isTerminal_false_of_isActive hcond.1
        split
        case h_1 hside =>
          exact ⟨rfl, statusStepOK_fill o (fillQty cfg q o b) hcond.1,
            fun habs => absurd habs (by rw [hterm]; simp)⟩
        case h_2 hside =>
          exact ⟨rfl, statusStepOK_fill o (fillQty cfg q o b) hcond.1,
            fun habs => absurd habs (by rw [hterm]; simp)⟩

theorem matchOrders_books (cfg : Config) (q : Quote) (os : List Order) (b : Books)
    (hm : markedAt b.positions q.symbol q.price) (hb : balanceInv b) :
    balanceInv (matchOrders cfg q os b).2.1 ∧
      markedAt (matchOrders cfg q os b).2.1.positions q.symbol q.price := by
  induction os generalizing b with
  | nil => exact ⟨hb, hm⟩
  | cons o rest ih =>
    rw [matchOrders]
    dsimp only
    have h1 := tryFill_books cfg q o b hm hb
    exact ih (tryFill cfg q o b).2.1 h1.2 h1.1

theorem matchOrders_posInv (cfg : Config) (q : Quote) (os : List Order) (b : Books)
    (h : posInv b.positions) : posInv (matchOrders cfg q os b).2.1.positions := by
  induction os generalizing b with
  | nil => exact h
  | cons o rest ih =>
    rw [matchOrders]
    dsimp only
    exact ih (tryFill cfg q o b).2.1 (tryFill_posInv cfg q o b h)

theorem matchOrders_inactive (cfg : Config) (q : Quote) (os : List Order) (b : Books)
    (h : ∀ o ∈ os, o.status.isActive = false) :
    matchOrders cfg q os b = (os, b, []) := by
  induction os generalizing b with
  | nil => rfl
  | cons o rest ih =>
    rw [matchOrders]
    rw [tryFill_inactive cfg q o b (h o (by simp))]
    rw [ih b (fun x hx => h x (by simp [hx]))]
    rfl

theorem matchOrders_orders (cfg : Config) (q : Quote) (os : List Order) (b : Books) :
    ∀ o ∈ os, ∃ o' ∈ (matchOrders cfg q os b).1,
      o'.id = o.id ∧ statusStepOK o.status o'.status = true ∧
      (o.status.isTerminal = true → o' = o) := by
  induction os generalizing b with
  | nil => intro o h; cases h
  | cons o0 rest ih =>
    intro o ho
    rw [matchOrders]
    dsimp only
    rcases List.mem_cons.mp ho with h1 | h1
    · subst h1
      refine ⟨(tryFill cfg q o b).1, by simp, ?_, ?_, ?_⟩
      · exact (tryFill_order cfg q o b).1
      · exact (tryFill_order cfg q o b).2.1
      · exact (tryFill_order cfg q o b).2.2
    · obtain ⟨o', ho', hprop⟩ := ih (tryFill cfg q o0 b).2.1 o h1
      exact ⟨o', by simp [ho'], hprop⟩

theorem matchOrders_orders_rev (cfg : Config) (q : Quote) (os : List Order) (b : Books) :
    ∀ o' ∈ (matchOrders cfg q os b).1, ∃ o ∈ os,
      o'.id = o.id ∧ statusStepOK o.status o'.status = true ∧
      (o.status.isTerminal = true → o' = o) := by
  induction os generalizing b with
  | nil => intro o' h; cases h
  | cons o0 rest ih =>
    intro o' ho'
    rw [matchOrders] at ho'
    dsimp only at ho'
    rcases List.mem_cons.mp ho' with h1 | h1
    · subst h1
      refine ⟨o0, by simp, ?_, ?_, ?_⟩
      · exact (tryFill_order cfg q o0 b).1
      · exact (tryFill_order cfg q o0 b).2.1
      · exact (tryFill_order cfg q o0 b).2.2
    · obtain ⟨o, ho, hprop⟩ := ih (tryFill cfg q o0 b).2.1 o' h1
      exact ⟨o, by simp [ho], hprop⟩

theorem mem_insertPriority (o a : Order) (l : List Order) :
    a ∈ insertPriority o l ↔ a = o ∨ a ∈ l := by
  induction l with
  | nil => simp [insertPriority]
  | cons x xs ih =>
    rw [insertPriority]
    split
    · simp
    · rw [List.mem_cons, ih, List.mem_cons]
      tauto

theorem mem_sortOrders (a : Order) (l : List Order) :
    a ∈ sortOrders l ↔ a ∈ l := by
  induction l with
  | nil => simp [sortOrders]
  | cons x xs ih =>
    rw [sortOrders, mem_insertPriority, ih, List.mem_cons]

theorem balanceInv_applyMarkBooks (s : String) (px : ℚ) (b : Books)
    (hb : balanceInv b) : balanceInv (applyMarkBooks s px b) := by
  unfold balanceInv applyMarkBooks at *
  dsimp only
  rw [sumMV_markPositions]
  linarith

theorem balanceInv_freezeCash (a : ℚ) (b : Books) (hb : balanceInv b) :
    balanceInv (freezeCash a b) := by
  unfold balanceInv freezeCash at *
  dsimp only
  linarith

theorem balanceInv_releaseFreeze (a : ℚ) (b : Books) (hb : balanceInv b) :
    balanceInv (releaseFreeze a b) := by
  unfold balanceInv releaseFreeze at *
  dsimp only
  linarith

theorem processQuote_balance (cfg : Config) (q : Quote) (st : EngineState)
    (hb : balanceInv st.books) : balanceInv (processQuote cfg q st).books := by
  unfold processQuote
  split
  · exact (matchOrders_books cfg q (sortOrders st.orders)
      (applyMarkBooks q.symbol q.price st.books)
      (markedAt_markPositions st.books.positions q.symbol q.price)
      (balanceInv_applyMarkBooks q.symbol q.price st.books hb)).1
  · exact balanceInv_applyMarkBooks q.symbol q.price st.books hb

theorem submitOrder_balance (cfg : Config) (req : OrderRequest) (st : EngineState)
    (hb : balanceInv st.books) : balanceInv (submitOrder cfg req st).1.books := by
  unfold submitOrder
  split
  · exact hb
  · split
    · split
      · exact hb
      · exact balanceInv_freezeCash _ st.books hb
    · split
      · exact hb
      · exact hb

theorem cancelOrder_balance (st : EngineState) (oid : ℕ)
    (hb : balanceInv st.books) : balanceInv (cancelOrder st oid).1.books := by
  unfold cancelOrder
  split
  · exact hb
  · split
    · exact balanceInv_releaseFreeze _ st.books hb
    · exact hb

theorem rollSettlement_balance (st : EngineState)
    (hb : balanceInv st.books) : balanceInv (rollSettlement st).books := by
  unfold balanceInv rollSettlement at *
  dsimp only
  rw [sumMV_rollPositions]
  linarith

theorem submitOrder_positions (cfg : Config) (req : OrderRequest) (st : EngineState) :
    (submitOrder cfg req st).1.books.positions = st.books.positions := by
  unfold submitOrder rejectSubmit freezeCash
  split
  · rfl
  · split
    · split
      · rfl
      · rfl
    · split
      · rfl
      · rfl

theorem cancelOrder_positions (st : EngineState) (oid : ℕ) :
    (cancelOrder st oid).1.books.positions = st.books.positions := by
  unfold cancelOrder releaseFreeze
  split
  · rfl
  · split
    · rfl
    · rfl

theorem processQuote_posInv (cfg : Config) (q : Quote) (st : EngineState)
    (h : posInv st.books.positions) : posInv (processQuote cfg q st).books.positions := by
  unfold processQuote
  split
  · exact matchOrders_posInv cfg q (sortOrders st.orders)
      (applyMarkBooks q.symbol q.price st.books)
      (posInv_markPositions st.books.positions q.symbol q.price h)
  · exact posInv_markPositions st.books.positions q.symbol q.price h

/-- C1: for every account, at every settlement point, the sum of
`cashBalance`, `frozenCash` and the market values of all the account's
positions equals `totalAsset`, and this balance equation is preserved by
every engine operation — order admission (with its cash freeze),
cancellation (with its freeze release), a quote tick (mark-to-market
followed by fill settlements), and the settlement roll. -/
theorem balance_equation_preserved (cfg : Config) (op : EngineOp) (st : EngineState)
    (h : balanceInv st.books) : balanceInv (applyOp cfg op st).books := by
  cases op with
  | submit req => exact submitOrder_balance cfg req st h
  | cancel oid => exact cancelOrder_balance st oid h
  | tick q => exact processQuote_balance cfg q st h
  | roll => exact rollSettlement_balance st h

/-- Witness: the balance equation holds for the MARKET-BUY scenario account
and is preserved by processing its quote tick. -/
theorem balance_equation_preserved_witness :
    balanceInv demoState.books ∧
      balanceInv (applyOp demoConfig (EngineOp.tick demoQuote) demoState).books := by
  have hb : balanceInv demoState.books := by
    norm_num [demoState, demoBooks, balanceInv, sumMV]
  exact ⟨hb, balance_equation_preserved demoConfig (EngineOp.tick demoQuote) demoState hb⟩

/-- C2: for every position, `0 <= availableQuantity <= quantity`, and every
engine operation that touches positions (buy and sell fills inside a
matching pass, the settlement roll, the mark-to-market update) preserves
these bounds. -/
theorem position_bounds_preserved (cfg : Config) (op : EngineOp) (st : EngineState)
    (h : posInv st.books.positions) : posInv (applyOp cfg op st).books.positions := by
  cases op with
  | submit req =>
    show posInv (submitOrder cfg req st).1.books.positions
    rw [submitOrder_positions]
    exact h
  | cancel oid =>
    show posInv (cancelOrder st oid).1.books.positions
    rw [cancelOrder_positions]
    exact h
  | tick q => exact processQuote_posInv cfg q st h
  | roll => exact posInv_rollPositions st.books.positions h

/-- Witness: the position bounds hold for the LIMIT-SELL scenario's
position book and are preserved by processing the `11.50` tick. -/
theorem position_bounds_preserved_witness :
    posInv limitState.books.positions ∧
      posInv (applyOp limitCfg (EngineOp.tick (limitQuote (23/2))) limitState).books.positions := by
  have hp : posInv limitState.books.positions := by
    intro p hp
    simp only [limitState, limitPos] at hp
    rcases List.mem_singleton.mp hp with h1
    rw [h1]
    norm_num
  exact ⟨hp, position_bounds_preserved limitCfg (EngineOp.tick (limitQuote (23/2))) limitState hp⟩

/-- C3: T+1 settlement.  (i) A BUY fill never adds to any position's
`availableQuantity`; (ii) `rollSettlement` is what makes the full quantity
available; (iii) a SELL order for more than the position's
`availableQuantity` is rejected synchronously with reason
`InsufficientShares`: the books are untouched, the order is recorded in
terminal REJECTED status, and a matching attempt against it is a no-op
emitting no trade (it never enters the matching loop). -/
theorem tplus1_enforced :
    (∀ (ps : List Position) (s : String) (fq : ℤ) (execPx markPx : ℚ) (s' : String),
        availableOf (applyBuyFill ps s fq execPx markPx) s' = availableOf ps s')
    ∧ (∀ st : EngineState, ∀ p ∈ (rollSettlement st).books.positions,
        p.availableQuantity = p.quantity)
    ∧ (∀ (cfg : Config) (req : OrderRequest) (st : EngineState),
        req.side = Side.sell →
        ¬(req.orderType = OrderType.limit ∧ req.limitPrice = none) →
        0 < req.quantity →
        availableOf st.books.positions req.symbol < req.quantity →
        (submitOrder cfg req st).2 = Except.error RejectReason.insufficientShares
        ∧ (submitOrder cfg req st).1.books = st.books
        ∧ (submitOrder cfg req st).1.orders = st.orders ++
            [newOrder req st.nextOrderId .rejected (some .insufficientShares) 0]
        ∧ (newOrder req st.nextOrderId OrderStatus.rejected
            (some RejectReason.insufficientShares) 0).status.isTerminal = true
        ∧ ∀ (cfg' : Config) (q : Quote) (b : Books),
            tryFill cfg' q
                (newOrder req st.nextOrderId .rejected (some .insufficientShares) 0) b =
              (newOrder req st.nextOrderId .rejected (some .insufficientShares) 0, b, none)) := by
  refine ⟨availableOf_applyBuyFill, ?_, ?_⟩
  · intro st
    exact rollPositions_avail st.books.positions
  · intro cfg req st hside hvalid hqty havail
    unfold submitOrder
    rw [if_neg (by push_neg; exact ⟨fun h1 h2 => hvalid ⟨h1, h2⟩, by omega⟩)]
    rw [show req.side = Side.sell from hside]
    dsimp only
    rw [if_pos havail]
    unfold rejectSubmit
    refine ⟨rfl, rfl, rfl, rfl, ?_⟩
    intro cfg' q b
    exact tryFill_inactive cfg' q _ b rfl

theorem statusStepOK_cancelled {s : OrderStatus} (h : s.isActive = true) :
    statusStepOK s OrderStatus.cancelled = true := by
  cases s <;> simp_all [OrderStatus.isActive] <;> rfl

theorem submitOrder_orders (cfg : Config) (req : OrderRequest) (st : EngineState) :
    ∃ stt rsn fz, (stt = OrderStatus.pending ∨ stt = OrderStatus.rejected) ∧
      (submitOrder cfg req st).1.orders =
        st.orders ++ [newOrder req st.nextOrderId stt rsn fz] := by
  unfold submitOrder rejectSubmit
  split
  · exact ⟨.rejected, some .invalidOrder, 0, Or.inr rfl, rfl⟩
  · split
    · split
      · exact ⟨.rejected, some .insufficientFunds, 0, Or.inr rfl, rfl⟩
      · exact ⟨.pending, none, freezeAmount cfg req, Or.inl rfl, rfl⟩
    · split
      · exact ⟨.rejected, some .insufficientShares, 0, Or.inr rfl, rfl⟩
      · exact ⟨.pending, none, 0, Or.inl rfl, rfl⟩

/-- Witness: submitting the 200-share SELL against the 100-share-available
`limitState` is rejected with `InsufficientShares` and leaves the books
untouched. -/
theorem tplus1_enforced_witness :
    (submitOrder limitCfg oversellReq limitState).2 =
        Except.error RejectReason.insufficientShares ∧
      (submitOrder limitCfg oversellReq limitState).1.books = limitState.books := by
  have h := tplus1_enforced.2.2 limitCfg oversellReq limitState rfl
    (by simp [oversellReq]) (by norm_num [oversellReq])
    (by norm_num [limitState, limitPos, oversellReq, availableOf, findPos, List.find?])
  exact ⟨h.1, h.2.1⟩

theorem cancelOrder_orders (st : EngineState) (oid : ℕ) :
    (cancelOrder st oid).1.orders = st.orders ∨
      (cancelOrder st oid).1.orders = st.orders.map (fun o_ =>
        if o_.id = oid ∧ o_.status.isActive = true then
          { o_ with status := OrderStatus.cancelled, frozenRemaining := 0 }
        else o_) := by
  unfold cancelOrder
  split
  · exact Or.inl rfl
  · split
    · exact Or.inr rfl
    · exact Or.inl rfl

theorem processQuote_orders (cfg : Config) (q : Quote) (st : EngineState) :
    (processQuote cfg q st).orders = st.orders ∨
      (processQuote cfg q st).orders =
        (matchOrders cfg q (sortOrders st.orders)
          (applyMarkBooks q.symbol q.price st.books)).1 := by
  unfold processQuote
  split
  · exact Or.inr rfl
  · exact Or.inl rfl

/-- C4: every order's status follows the spec's finite state machine —
each engine operation moves each stored order along an allowed edge (or
leaves it in place), never mutates an order that is in a terminal status,
and every newly created order starts at PENDING (reaching REJECTED only
through the admission edge `PENDING -> REJECTED`). -/
theorem order_fsm (cfg : Config) (op : EngineOp) (st : EngineState) :
    (∀ o ∈ st.orders, ∃ o' ∈ (applyOp cfg op st).orders,
        o'.id = o.id ∧ statusStepOK o.status o'.status = true ∧
        (o.status.isTerminal = true → o' = o))
    ∧ (∀ o' ∈ (applyOp cfg op st).orders,
        (∃ o ∈ st.orders, o'.id = o.id ∧ statusStepOK o.status o'.status = true ∧
          (o.status.isTerminal = true → o' = o))
        ∨ statusStepOK OrderStatus.pending o'.status = true) := by
  have unchanged : ∀ l : List Order, l = st.orders →
      ((∀ o ∈ st.orders, ∃ o' ∈ l,
          o'.id = o.id ∧ statusStepOK o.status o'.status = true ∧
          (o.status.isTerminal = true → o' = o))
        ∧ (∀ o' ∈ l,
            (∃ o ∈ st.orders, o'.id = o.id ∧ statusStepOK o.status o'.status = true ∧
              (o.status.isTerminal = true → o' = o))
            ∨ statusStepOK OrderStatus.pending o'.status = true)) := by
    intro l hl
    subst hl
    exact ⟨fun o ho => ⟨o, ho, rfl, statusStepOK_refl _, fun _ => rfl⟩,
      fun o' ho' => Or.inl ⟨o', ho', rfl, statusStepOK_refl _, fun _ => rfl⟩⟩
  cases op with
  | submit req =>
    obtain ⟨stt, rsn, fz, hstt, heq⟩ := submitOrder_orders cfg req st
    simp only [applyOp]
    rw [heq]
    constructor
    · intro o ho
      exact ⟨o, List.mem_append_left _ ho, rfl, statusStepOK_refl _, fun _ => rfl⟩
    · intro o' ho'
      rcases List.mem_append.mp ho' with h1 | h1
      · exact Or.inl ⟨o', h1, rfl, statusStepOK_refl _, fun _ => rfl⟩
      · right
        rw [List.mem_singleton.mp h1]
        rcases hstt with h2 | h2 <;> rw [h2] <;> rfl
  | cancel oid =>
    simp only [applyOp]
    rcases cancelOrder_orders st oid with heq | heq <;> rw [heq]
    · exact unchanged st.orders rfl
    · constructor
      · intro o ho
        by_cases hc : o.id = oid ∧ o.status.isActive = true
        · refine ⟨{ o with status := OrderStatus.cancelled, frozenRemaining := 0 },
            List.mem_map.mpr ⟨o, ho, ?_⟩, rfl, statusStepOK_cancelled hc.2, ?_⟩
          · dsimp only
            rw [if_pos hc]
          · intro habs
            rw [isTerminal_false_of_isActive hc.2] at habs
            cases habs
        · refine ⟨o, List.mem_map.mpr ⟨o, ho, ?_⟩, rfl, statusStepOK_refl _, fun _ => rfl⟩
          dsimp only
          rw [if_neg hc]
      · intro o' ho'
        obtain ⟨o, ho, hfo⟩ := List.mem_map.mp ho'
        left
        by_cases hc : o.id = oid ∧ o.status.isActive = true
        · rw [if_pos hc] at hfo
          refine ⟨o, ho, ?_, ?_, ?_⟩
          · rw [← hfo]
          · rw [← hfo]
            exact statusStepOK_cancelled hc.2
          · intro habs
            rw [isTerminal_false_of_isActive hc.2] at habs
            cases habs
        · rw [if_neg hc] at hfo
          exact ⟨o, ho, by rw [← hfo], by rw [← hfo]; exact statusStepOK_refl _,
            fun _ => hfo.symm⟩
  | tick q =>
    simp only [applyOp]
    rcases processQuote_orders cfg q st with heq | heq <;> rw [heq]
    · exact unchanged st.orders rfl
    · constructor
      · intro o ho
        exact matchOrders_orders cfg q (sortOrders st.orders)
          (applyMarkBooks q.symbol q.price st.books) o
          ((mem_sortOrders o st.orders).mpr ho)
      · intro o' ho'
        obtain ⟨o, ho, hprop⟩ := matchOrders_orders_rev cfg q (sortOrders st.orders)
          (applyMarkBooks q.symbol q.price st.books) o' ho'
        exact Or.inl ⟨o, (mem_sortOrders o st.orders).mp ho, hprop⟩
  | roll =>
    simp only [applyOp]
    exact unchanged st.orders rfl

theorem limit_tick1 : processQuote limitCfg (limitQuote (23/2)) limitState =
    ⟨⟨0, 0, 1150, 0, [⟨"BBB", 100, 100, 10, 23/2⟩]⟩, [limitSellOrder], [], 2⟩ := by
  simp +decide only [processQuote, matchOrders, sortOrders, insertPriority, priorityLE,
    betterPrice, tryFill, execPrice, fillCap, commissionFor, fillQty, remainingQty,
    statusAfterFill, applyMarkBooks, markPositions, markDelta, applyBuyFill, applySellFill,
    availableOf, avgCostOf, findPos, OrderStatus.isActive, limitState, limitCfg, limitQuote,
    limitSellOrder, limitPos, List.find?]
  norm_num

theorem limit_tick2 : processQuote limitCfg (limitQuote (119/10))
      ⟨⟨0, 0, 1150, 0, [⟨"BBB", 100, 100, 10, 23/2⟩]⟩, [limitSellOrder], [], 2⟩ =
    ⟨⟨0, 0, 1190, 0, [⟨"BBB", 100, 100, 10, 119/10⟩]⟩, [limitSellOrder], [], 2⟩ := by
  simp +decide only [processQuote, matchOrders, sortOrders, insertPriority, priorityLE,
    betterPrice, tryFill, execPrice, fillCap, commissionFor, fillQty, remainingQty,
    statusAfterFill, applyMarkBooks, markPositions, markDelta, applyBuyFill, applySellFill,
    availableOf, avgCostOf, findPos, OrderStatus.isActive, limitCfg, limitQuote,
    limitSellOrder, List.find?]
  norm_num

theorem limit_tick3 : processQuote limitCfg (limitQuote (121/10))
      ⟨⟨0, 0, 1190, 0, [⟨"BBB", 100, 100, 10, 119/10⟩]⟩, [limitSellOrder], [], 2⟩ =
    ⟨⟨1210, 0, 1210, 210, []⟩,
      [{ limitSellOrder with filledQuantity := 100, status := .filled }],
      [⟨1, "BBB", Side.sell, 121/10, 100, 0⟩], 2⟩ := by
  simp +decide only [processQuote, matchOrders, sortOrders, insertPriority, priorityLE,
    betterPrice, tryFill, execPrice, fillCap, commissionFor, fillQty, remainingQty,
    statusAfterFill, applyMarkBooks, markPositions, markDelta, applyBuyFill, applySellFill,
    availableOf, avgCostOf, findPos, OrderStatus.isActive, limitCfg, limitQuote,
    limitSellOrder, List.find?]
  norm_num

/-- C5: LIMIT matching.  (i) A LIMIT BUY is offered an execution exactly
when `quote.price <= limitPrice`, at `min(quote.price, limitPrice)`; a
LIMIT SELL exactly when `quote.price >= limitPrice`, at
`max(quote.price, limitPrice)`; any execution price a LIMIT order can be
offered is never worse than its limit.  (ii) Every trade a matching attempt
emits carries exactly that execution price.  (iii) The spec's scenario: a
LIMIT SELL at `12.00` against quotes `11.50, 11.90, 12.10` fills only on
the third tick, at execution price `12.10`. -/
theorem limit_matching_price :
    (∀ (cfg : Config) (o : Order) (q : Quote) (lp : ℚ),
        o.orderType = OrderType.limit → o.limitPrice = some lp →
        (o.side = Side.buy →
          ((execPrice cfg o q).isSome = true ↔ q.price ≤ lp)
          ∧ (q.price ≤ lp → execPrice cfg o q = some (min q.price lp)))
        ∧ (o.side = Side.sell →
          ((execPrice cfg o q).isSome = true ↔ lp ≤ q.price)
          ∧ (lp ≤ q.price → execPrice cfg o q = some (max q.price lp)))
        ∧ (∀ px, execPrice cfg o q = some px →
            (o.side = Side.buy → px ≤ lp) ∧ (o.side = Side.sell → lp ≤ px)))
    ∧ (∀ (cfg : Config) (q : Quote) (o : Order) (b : Books) (t : Trade),
        (tryFill cfg q o b).2.2 = some t → execPrice cfg o q = some t.price)
    ∧ ((processQuote limitCfg (limitQuote (23/2)) limitState).trades = []
        ∧ (processQuote limitCfg (limitQuote (119/10))
            (processQuote limitCfg (limitQuote (23/2)) limitState)).trades = []
        ∧ (processQuote limitCfg (limitQuote (121/10))
            (processQuote limitCfg (limitQuote (119/10))
              (processQuote limitCfg (limitQuote (23/2)) limitState))).trades =
          [⟨1, "BBB", Side.sell, 121/10, 100, 0⟩]) := by
  refine ⟨?_, ?_, ?_⟩
  · intro cfg o q lp horder hlp
    refine ⟨?_, ?_, ?_⟩
    · intro hside
      simp only [execPrice, horder, hlp, hside]
      by_cases h : q.price ≤ lp
      · simp [h]
      · simp [h]
    · intro hside
      simp only [execPrice, horder, hlp, hside]
      by_cases h : lp ≤ q.price
      · simp [h]
      · simp [h]
    · intro px hpx
      simp only [execPrice, horder, hlp] at hpx
      constructor
      · intro hside
        rw [hside] at hpx
        by_cases h : q.price ≤ lp
        · rw [if_pos h] at hpx
          have : min q.price lp = px := by injection hpx
          rw [← this]
          exact min_le_right _ _
        · rw [if_neg h] at hpx
          cases hpx
      · intro hside
        rw [hside] at hpx
        by_cases h : lp ≤ q.price
        · rw [if_pos h] at hpx
          have : max q.price lp = px := by injection hpx
          rw [← this]
          exact le_max_right _ _
        · rw [if_neg h] at hpx
          cases hpx
  · intro cfg q o b t
    unfold tryFill
    split
    case isFalse => intro h; cases h
    case isTrue hcond =>
      split
      case h_1 => intro h; cases h
      case h_2 px hex =>
        split
        case isTrue => intro h; cases h
        case isFalse hfq =>
          split
          case h_1 hside =>
            intro ht
            have h1 : Trade.mk o.id o.symbol Side.buy px (fillQty cfg q o b)
                (commissionFor cfg Side.buy px (fillQty cfg q o b)) = t := by
              injection ht
            rw [hex, ← h1]
          case h_2 hside =>
            intro ht
            have h1 : Trade.mk o.id o.symbol Side.sell px (fillQty cfg q o b)
                (commissionFor cfg Side.sell px (fillQty cfg q o b)) = t := by
              injection ht
            rw [hex, ← h1]
  · rw [limit_tick1, limit_tick2, limit_tick3]
    exact ⟨rfl, rfl, rfl⟩

theorem applyBuyFill_of_findPos_none (ps : List Position) (s : String) (fq : ℤ)
    (e m : ℚ) (h : findPos ps s = none) :
    applyBuyFill ps s fq e m = ps ++ [⟨s, fq, 0, e, m⟩] := by
  induction ps with
  | nil => rfl
  | cons p rest ih =>
    by_cases hs : p.symbol = s
    · rw [findPos_cons_pos rest hs] at h
      cases h
    · rw [findPos_cons_neg rest hs] at h
      rw [applyBuyFill, if_neg hs, ih h]
      rfl

theorem findPos_append_left_none (ps qs : List Position) (s : String)
    (h : findPos ps s = none) : findPos (ps ++ qs) s = findPos qs s := by
  induction ps with
  | nil => rfl
  | cons p rest ih =>
    by_cases hs : p.symbol = s
    · rw [findPos_cons_pos rest hs] at h
      cases h
    · rw [findPos_cons_neg rest hs] at h
      rw [List.cons_append, findPos_cons_neg _ hs]
      exact ih h

theorem findPos_rollPositions_none (ps : List Position) (s : String)
    (h : findPos ps s = none) : findPos (rollPositions ps) s = none := by
  induction ps with
  | nil => rfl
  | cons p rest ih =>
    by_cases hs : p.symbol = s
    · rw [findPos_cons_pos rest hs] at h
      cases h
    · rw [findPos_cons_neg rest hs] at h
      simp only [rollPositions, List.map_cons]
      exact Eq.trans (findPos_cons_neg _ hs) (ih h)

theorem quantityOf_nonneg (ps : List Position) (s : String) (h : posInv ps) :
    0 ≤ quantityOf ps s := by
  rw [quantityOf]
  cases hf : findPos ps s with
  | none => exact le_refl 0
  | some p0 =>
    rw [findPos] at hf
    have hp0 : p0 ∈ ps := List.mem_of_find?_eq_some hf
    have h0 := h p0 hp0
    show 0 ≤ p0.quantity
    omega

theorem availableOf_roll_applyBuyFill (ps : List Position) (s : String) (fq : ℤ)
    (e m : ℚ) :
    availableOf (rollPositions (applyBuyFill ps s fq e m)) s = quantityOf ps s + fq := by
  induction ps with
  | nil =>
    show availableOf (rollPositions [⟨s, fq, 0, e, m⟩]) s = quantityOf [] s + fq
    rw [show rollPositions [(⟨s, fq, 0, e, m⟩ : Position)] = [⟨s, fq, fq, e, m⟩] from rfl,
      availableOf_cons_pos [] rfl, quantityOf, findPos_nil]
    show fq = 0 + fq
    omega
  | cons p rest ih =>
    by_cases hs : p.symbol = s
    · rw [applyBuyFill, if_pos hs]
      simp only [rollPositions, List.map_cons]
      rw [quantityOf, findPos_cons_pos rest hs]
      exact Eq.trans (availableOf_cons_pos _ hs) rfl
    · rw [applyBuyFill, if_neg hs]
      simp only [rollPositions, List.map_cons]
      rw [quantityOf, findPos_cons_neg rest hs]
      exact Eq.trans (availableOf_cons_neg _ hs) ih

/-- C6: round trip — with zero commission (rate, minimum and stamp tax all
zero) and zero slippage, on every account whose position book satisfies the
spec's position invariant, a BUY fill of `n` shares at price `p` (together
with its admission-time freeze and release) followed, after the settlement
roll, by a SELL fill of the same `n` shares at the same price returns the
account's `cashBalance` to its value before the BUY. -/
theorem buy_sell_round_trip (cfg : Config) (b : Books) (s : String) (n : ℤ) (p : ℚ)
    (hn : 0 < n)
    (hcomm : cfg.commissionRate = 0) (hmin : cfg.minCommission = 0)
    (hstamp : cfg.stampTaxRate = 0) (hslip : cfg.slippageRate = 0)
    (hinv : posInv b.positions) :
    (roundTripBooks cfg s n p b).cashBalance = b.cashBalance := by
  have hne : (n : ℚ) ≠ 0 := Int.cast_ne_zero.mpr (by omega)
  have hn' : ¬ (n ≤ 0) := by omega
  have hq0 : 0 ≤ quantityOf b.positions s := quantityOf_nonneg b.positions s hinv
  have havail : availableOf (rollPositions (applyBuyFill b.positions s n p p)) s =
      quantityOf b.positions s + n := availableOf_roll_applyBuyFill b.positions s n p p
  have hminEq : n ⊓ (quantityOf b.positions s + n) = n := min_eq_left (by omega)
  simp only [roundTripBooks, rtQuote, rtBuyOrder, rtSellOrder, rollBooks, tryFill,
    execPrice, fillQty, fillCap, remainingQty, statusAfterFill, commissionFor,
    OrderStatus.isActive, freezeCash, hcomm, hmin, hstamp, hslip]
  norm_num [hn', havail, hminEq]
  field_simp

theorem applyMarkBooks_idem (s : String) (px : ℚ) (b : Books) :
    applyMarkBooks s px (applyMarkBooks s px b) = applyMarkBooks s px b := by
  simp [applyMarkBooks, markPositions_markPositions, markDelta_markPositions]

theorem processQuote_no_active (cfg : Config) (q : Quote) (st : EngineState)
    (hno : ∀ o ∈ st.orders, o.status.isActive = false) :
    (processQuote cfg q st).trades = st.trades
    ∧ (processQuote cfg q st).books = applyMarkBooks q.symbol q.price st.books
    ∧ ∀ o ∈ (processQuote cfg q st).orders, o.status.isActive = false := by
  have hsorted : ∀ o ∈ sortOrders st.orders, o.status.isActive = false :=
    fun o ho => hno o ((mem_sortOrders o st.orders).mp ho)
  unfold processQuote
  split
  · rw [matchOrders_inactive cfg q (sortOrders st.orders) _ hsorted]
    exact ⟨by simp, rfl, hsorted⟩
  · exact ⟨rfl, rfl, hno⟩

/-- C7: for an account with no resting orders, processing a quote tick
emits no Trade and changes nothing but the mark-to-market update (the
symbol's stored `lastPrice` together with the ledger's corresponding
`totalAsset` revaluation); replaying the same tick changes nothing at
all. -/
theorem tick_noop_without_resting_orders (cfg : Config) (q : Quote) (st : EngineState)
    (hno : ∀ o ∈ st.orders, o.status.isActive = false) :
    (processQuote cfg q st).trades = st.trades
    ∧ (processQuote cfg q st).books = applyMarkBooks q.symbol q.price st.books
    ∧ (processQuote cfg q (processQuote cfg q st)).books = (processQuote cfg q st).books
    ∧ (processQuote cfg q (processQuote cfg q st)).trades = (processQuote cfg q st).trades := by
  have h1 := processQuote_no_active cfg q st hno
  have h2 := processQuote_no_active cfg q (processQuote cfg q st) h1.2.2
  refine ⟨h1.1, h1.2.1, ?_, h2.1⟩
  rw [h2.2.1, h1.2.1, applyMarkBooks_idem, ← h1.2.1]

/-- Witness: ticking the positionless, orderless million-cash account emits
no trade and replaying the tick is a no-op on the books. -/
theorem tick_noop_without_resting_orders_witness :
    (processQuote demoConfig demoQuote demoState).trades = demoState.trades
    ∧ (processQuote demoConfig demoQuote (processQuote demoConfig demoQuote
        demoState)).books = (processQuote demoConfig demoQuote demoState).books := by
  have h := tick_noop_without_resting_orders demoConfig demoQuote demoState
    (by intro o ho; simp [demoState] at ho)
  exact ⟨h.1, h.2.2.1⟩

/-- Witness: the round trip of 1000 shares of `AAA` at `10.00` on the
million-cash account restores its cash balance exactly. -/
theorem buy_sell_round_trip_witness :
    (roundTripBooks limitCfg "AAA" 1000 10 demoBooks).cashBalance =
      demoBooks.cashBalance :=
  buy_sell_round_trip limitCfg demoBooks "AAA" 1000 10 (by norm_num) rfl rfl rfl rfl
    (by intro p_ hp_; simp [demoBooks] at hp_)

theorem demo_buy_result :
    processQuote demoConfig demoQuote (submitOrder demoConfig demoBuyReq demoState).1 =
      ⟨⟨989997, 0, 999997, 0, [⟨"AAA", 1000, 0, 10, 10⟩]⟩,
        [⟨0, "AAA", .buy, .market, none, 1000, 1000, 0, .filled, none, 0⟩],
        [⟨0, "AAA", .buy, 10, 1000, 3⟩], 1⟩ := by
  simp +decide only [demoState, demoBooks, demoConfig, demoBuyReq, demoQuote, submitOrder,
    rejectSubmit, newOrder, freezeCash, freezeAmount, freezeRefPrice]
  norm_num
  simp +decide only [processQuote, matchOrders, sortOrders, insertPriority, priorityLE,
    betterPrice, tryFill, execPrice, fillCap, commissionFor, fillQty, remainingQty,
    statusAfterFill, applyMarkBooks, markPositions, markDelta, applyBuyFill, applySellFill,
    availableOf, avgCostOf, findPos, OrderStatus.isActive, List.find?]
  norm_num

/-- C8: commission.  (i) Every trade a matching attempt emits carries
commission `execPrice * filledQty * commissionRate`, floored at the
configured minimum commission, plus the SELL-side stamp tax for SELL
trades.  (ii) The spec's scenario: on the million-cash account, a MARKET
BUY of 1000 shares at quote price `10.00` with commission rate `0.0003`
trades at price `10.00` with commission `3.00`, reduces the cash balance by
exactly `10,003.00`, and leaves `position.quantity = 1000` and
`position.availableQuantity = 0`. -/
theorem commission_formula :
    (∀ (cfg : Config) (q : Quote) (o : Order) (b : Books) (t : Trade),
        (tryFill cfg q o b).2.2 = some t →
        t.commission = max (t.price * t.quantity * cfg.commissionRate) cfg.minCommission +
          (if t.side = Side.sell then t.price * t.quantity * cfg.stampTaxRate else 0))
    ∧ (processQuote demoConfig demoQuote
          (submitOrder demoConfig demoBuyReq demoState).1).trades =
        [⟨0, "AAA", .buy, 10, 1000, 3⟩]
    ∧ (processQuote demoConfig demoQuote
          (submitOrder demoConfig demoBuyReq demoState).1).books.cashBalance =
        demoBooks.cashBalance - 10003
    ∧ findPos (processQuote demoConfig demoQuote
          (submitOrder demoConfig demoBuyReq demoState).1).books.positions "AAA" =
        some ⟨"AAA", 1000, 0, 10, 10⟩ := by
  refine ⟨?_, ?_, ?_, ?_⟩
  · intro cfg q o b t
    unfold tryFill
    split
    case isFalse => intro h; cases h
    case isTrue hcond =>
      split
      case h_1 => intro h; cases h
      case h_2 px hex =>
        split
        case isTrue => intro h; cases h
        case isFalse hfq =>
          split
          case h_1 hside =>
            intro ht
            have h1 : Trade.mk o.id o.symbol Side.buy px (fillQty cfg q o b)
                (commissionFor cfg Side.buy px (fillQty cfg q o b)) = t := by
              injection ht
            rw [← h1]
            simp [commissionFor]
          case h_2 hside =>
            intro ht
            have h1 : Trade.mk o.id o.symbol Side.sell px (fillQty cfg q o b)
                (commissionFor cfg Side.sell px (fillQty cfg q o b)) = t := by
              injection ht
            rw [← h1]
            simp [commissionFor]
  · rw [demo_buy_result]
  · rw [demo_buy_result]
    norm_num [demoBooks]
  · rw [demo_buy_result]
    simp [findPos, List.find?]

/-- Witness: the `3.00` commission of the scenario's MARKET BUY trade obeys
the commission formula. -/
theorem commission_formula_witness :
    (3 : ℚ) = max ((10:ℚ) * 1000 * demoConfig.commissionRate) demoConfig.minCommission +
      (if Side.buy = Side.sell then (10:ℚ) * 1000 * demoConfig.stampTaxRate else 0) := by
  have h := commission_formula.1 demoConfig demoQuote
    ⟨0, "AAA", .buy, .market, none, 1000, 0, 10000, .pending, none, 0⟩
    ⟨990000, 10000, 1000000, 0, []⟩ ⟨0, "AAA", .buy, 10, 1000, 3⟩
  have h2 := h (by
    simp +decide only [tryFill, execPrice, fillCap, commissionFor, fillQty, remainingQty,
      statusAfterFill, applyBuyFill, availableOf, findPos, OrderStatus.isActive,
      demoConfig, demoQuote, List.find?]
    norm_num)
  simpa using h2

/-- Witness: the scenario's LIMIT SELL at `12.00` is offered execution
price `max(12.10, 12.00) = 12.10` on the `12.10` quote. -/
theorem limit_matching_price_witness :
    execPrice limitCfg limitSellOrder (limitQuote (121/10)) =
      some (max ((121:ℚ)/10) 12) := by
  have h := (limit_matching_price.1 limitCfg limitSellOrder (limitQuote (121/10)) 12
    rfl rfl).2.1 rfl
  exact h.2 (by norm_num [limitQuote])

/-- Witness: processing the `12.10` tick of the LIMIT-SELL scenario moves
its resting PENDING order along an allowed FSM edge. -/
theorem order_fsm_witness :
    ∃ o' ∈ (applyOp limitCfg (EngineOp.tick (limitQuote (121/10))) limitState).orders,
      o'.id = limitSellOrder.id ∧
        statusStepOK limitSellOrder.status o'.status = true ∧
        (limitSellOrder.status.isTerminal = true → o' = limitSellOrder) := by
  exact (order_fsm limitCfg (EngineOp.tick (limitQuote (121/10))) limitState).1
    limitSellOrder (by simp [limitState])

end Engine

namespace WebAPI

/-- C9: `TradingAPI.request` resolves with the parsed JSON body exactly
when `fetch` resolves with `response.ok` true and the body parses; a
non-ok response or a fetch failure is re-thrown as an error (never
converted into a return value), and the public methods built on `request`
propagate those failures to their callers unchanged. -/
theorem request_error_propagation :
    (∀ (β : Type) (o : FetchOutcome β) (v : β),
        request o = Except.ok v ↔
          ∃ status, o = FetchOutcome.response true status (Except.ok v))
    ∧ (∀ (β : Type) (status : ℕ) (body : Except String β),
        request (FetchOutcome.response false status body) =
          Except.error ("HTTP error! status: " ++ toString status))
    ∧ (∀ (β : Type) (msg : String),
        request (FetchOutcome.networkFailure msg : FetchOutcome β) = Except.error msg)
    ∧ (∀ (β : Type) (env : String → FetchOutcome β) (accountId : ℕ) (e : String),
        request (env ("/accounts/" ++ toString accountId ++ "/summary")) =
            Except.error e →
          getAccountSummary env accountId = Except.error e)
    ∧ (∀ (β : Type) (env : String → FetchOutcome β) (accountId : ℕ) (e : String),
        request (env ("/accounts/" ++ toString accountId ++ "/positions")) =
            Except.error e →
          getPositions env accountId = Except.error e)
    ∧ (∀ (β : Type) (env : String → FetchOutcome β) (e : String),
        request (env "/market/realtime/indices") = Except.error e →
          getMarketIndices env = Except.error e) := by
  refine ⟨?_, ?_, ?_, fun β env a e h => h, fun β env a e h => h, fun β env e h => h⟩
  · intro β o v
    constructor
    · intro h
      cases o with
      | networkFailure msg => simp [request] at h
      | response ok status body =>
        cases ok with
        | false => simp [request] at h
        | true =>
          simp [request] at h
          exact ⟨status, by rw [h]⟩
    · rintro ⟨status, rfl⟩
      rfl
  · intro β status body
    rfl
  · intro β msg
    rfl

/-- Witness: a status-500 response is re-thrown as an `HTTP error!`. -/
theorem request_error_propagation_witness :
    request (FetchOutcome.response false 500 (Except.ok (42:ℕ))) =
      Except.error "HTTP error! status: 500" := by
  rw [request_error_propagation.2.1 ℕ 500 (Except.ok 42)]
  rfl

theorem foldl_stepRealtime_inactive {α μ : Type}
    (env : ℕ → Except String α × Except String μ) (evs : List TimerEvent)
    (st : RealtimeState α μ) (h : st.active = false) :
    evs.foldl (stepRealtime env) st = st := by
  induction evs generalizing st with
  | nil => rfl
  | cons e rest ih =>
    rw [List.foldl_cons]
    cases e with
    | tick =>
      rw [stepRealtime, if_neg (by rw [h]; simp)]
      exact ih st h
    | cleanup =>
      have hstep : stepRealtime env st TimerEvent.cleanup = st := by
        rw [stepRealtime]
        cases st with
        | mk a n c => simp_all
      rw [hstep]
      exact ih st h

theorem runRealtime_ticks {α μ : Type} (env : ℕ → Except String α × Except String μ)
    (k : ℕ) :
    runRealtime env (List.replicate k TimerEvent.tick) =
      ⟨true, k + 1,
        (List.range (k+1)).filterMap (fun i => updateData (env i).1 (env i).2)⟩ := by
  induction k with
  | zero =>
    show startRealtimeUpdates env = _
    rw [startRealtimeUpdates]
    have h1 : (List.range 1).filterMap (fun i => updateData (env i).1 (env i).2) =
        (updateData (env 0).1 (env 0).2).toList := by
      rw [show List.range 1 = [0] from rfl]
      cases h : updateData (env 0).1 (env 0).2 <;> simp [h]
    rw [h1]
  | succ k ih =>
    rw [List.replicate_succ']
    show (List.replicate k TimerEvent.tick ++ [TimerEvent.tick]).foldl
        (stepRealtime env) (startRealtimeUpdates env) = _
    rw [List.foldl_append]
    have ih' : (List.replicate k TimerEvent.tick).foldl (stepRealtime env)
        (startRealtimeUpdates env) =
        ⟨true, k + 1,
          (List.range (k+1)).filterMap (fun i => updateData (env i).1 (env i).2)⟩ := ih
    rw [ih']
    rw [List.foldl_cons, List.foldl_nil, stepRealtime, if_pos rfl]
    have h2 : (List.range (k+1+1)).filterMap (fun i => updateData (env i).1 (env i).2) =
        (List.range (k+1)).filterMap (fun i => updateData (env i).1 (env i).2) ++
          (updateData (env (k+1)).1 (env (k+1)).2).toList := by
      rw [List.range_succ, List.filterMap_append]
      cases h : updateData (env (k+1)).1 (env (k+1)).2 <;> simp [h]
    rw [h2]

/-- C10: `startRealtimeUpdates` invokes the callback once immediately
(cycle 0) and then once per interval tick with the latest account summary
and market indices; a cycle in which either fetch fails is caught inside
the loop — the callback is not invoked for that cycle, no error escapes,
and later cycles still run; after the returned cleanup function is called
no further cycle runs. -/
theorem realtime_update_cycle (α μ : Type)
    (env : ℕ → Except String α × Except String μ) (k : ℕ) :
    ((startRealtimeUpdates env).calls = (updateData (env 0).1 (env 0).2).toList)
    ∧ ((runRealtime env (List.replicate k TimerEvent.tick)).calls =
        (List.range (k+1)).filterMap (fun i => updateData (env i).1 (env i).2))
    ∧ (∀ evs', runRealtime env
          (List.replicate k TimerEvent.tick ++ TimerEvent.cleanup :: evs') =
        { runRealtime env (List.replicate k TimerEvent.tick) with active := false })
    ∧ (∀ (acct : Except String α) (mkt : Except String μ),
        ((∃ e, acct = Except.error e) ∨ (∃ e, mkt = Except.error e)) →
          updateData acct mkt = none)
    ∧ (∀ (acct : Except String α) (mkt : Except String μ) (a : α) (m : μ),
        updateData acct mkt = some ⟨a, m⟩ ↔
          acct = Except.ok a ∧ mkt = Except.ok m) := by
  refine ⟨rfl, ?_, ?_, ?_, ?_⟩
  · rw [runRealtime_ticks]
  · intro evs'
    show (List.replicate k TimerEvent.tick ++ TimerEvent.cleanup :: evs').foldl
        (stepRealtime env) (startRealtimeUpdates env) = _
    rw [List.foldl_append, List.foldl_cons]
    have h1 : stepRealtime env
        ((List.replicate k TimerEvent.tick).foldl (stepRealtime env)
          (startRealtimeUpdates env)) TimerEvent.cleanup =
        { runRealtime env (List.replicate k TimerEvent.tick) with active := false } := by
      rw [stepRealtime]
      rfl
    rw [h1]
    exact foldl_stepRealtime_inactive env evs' _ rfl
  · intro acct mkt hfail
    cases acct with
    | error e => cases mkt <;> rfl
    | ok a =>
      cases mkt with
      | error e => rfl
      | ok m =>
        rcases hfail with ⟨e, he⟩ | ⟨e, he⟩ <;> cases he
  · intro acct mkt a m
    cases acct with
    | error e =>
      cases mkt <;> simp [updateData]
    | ok a' =>
      cases mkt with
      | error e => simp [updateData]
      | ok m' =>
        simp [updateData, UpdatePayload.mk.injEq]

/-- Witness: with cycle 1's account fetch failing, two interval ticks
still deliver the immediate cycle-0 payload and the cycle-2 payload — the
failed cycle is skipped without stopping the loop. -/
theorem realtime_update_cycle_witness :
    (runRealtime demoEnv (List.replicate 2 TimerEvent.tick)).calls =
      [⟨42, 7⟩, ⟨42, 7⟩] := by
  rw [(realtime_update_cycle ℕ ℕ demoEnv 2).2.1]
  rfl

end WebAPI
